import Mathlib

/-!
A verification development for the Smart Desktop Cleaner core
(`FileScanner`, `FileClassifier`, `FileMover`, `Config.h`), shallowly
embedded: the filesystem is a finite set of file and directory path
strings, fallible filesystem calls are driven by an explicit oracle, and
the per-call wall clock is an explicit parameter.
-/

namespace DesktopCleaner

/-- `FileInfo` from FileScanner.h: metadata about a single scanned file. -/
structure FileInfo where
  path : String
  name : String
  extension : String
  sizeBytes : Int
  lastModified : Int
deriving DecidableEq

/-! ## Config.h -/

def CATEGORY_DOCUMENTS : String := "Documents"

def CATEGORY_IMAGES : String := "Images"

def CATEGORY_VIDEOS : String := "Videos"

def CATEGORY_ARCHIVES : String := "Archives"

def CATEGORY_CODE : String := "Code"

def CATEGORY_OTHERS : String := "Others"

def getAllCategories : List String :=
  [CATEGORY_DOCUMENTS, CATEGORY_IMAGES, CATEGORY_VIDEOS,
   CATEGORY_ARCHIVES, CATEGORY_CODE, CATEGORY_OTHERS]

/-- The extension→category table built by `buildExtensionMap` in Config.h
from the five extension sets (all keys are distinct, so the C++ insertion
order over the unordered sets is immaterial). -/
def extensionMap : List (String × String) :=
  [(".pdf", CATEGORY_DOCUMENTS), (".doc", CATEGORY_DOCUMENTS),
   (".docx", CATEGORY_DOCUMENTS), (".txt", CATEGORY_DOCUMENTS),
   (".rtf", CATEGORY_DOCUMENTS), (".odt", CATEGORY_DOCUMENTS),
   (".xlsx", CATEGORY_DOCUMENTS), (".xls", CATEGORY_DOCUMENTS),
   (".pptx", CATEGORY_DOCUMENTS), (".ppt", CATEGORY_DOCUMENTS),
   (".csv", CATEGORY_DOCUMENTS),
   (".jpg", CATEGORY_IMAGES), (".jpeg", CATEGORY_IMAGES),
   (".png", CATEGORY_IMAGES), (".gif", CATEGORY_IMAGES),
   (".bmp", CATEGORY_IMAGES), (".svg", CATEGORY_IMAGES),
   (".webp", CATEGORY_IMAGES), (".ico", CATEGORY_IMAGES),
   (".tiff", CATEGORY_IMAGES), (".tif", CATEGORY_IMAGES),
   (".raw", CATEGORY_IMAGES),
   (".mp4", CATEGORY_VIDEOS), (".mkv", CATEGORY_VIDEOS),
   (".avi", CATEGORY_VIDEOS), (".mov", CATEGORY_VIDEOS),
   (".wmv", CATEGORY_VIDEOS), (".flv", CATEGORY_VIDEOS),
   (".webm", CATEGORY_VIDEOS), (".mpeg", CATEGORY_VIDEOS),
   (".mpg", CATEGORY_VIDEOS), (".3gp", CATEGORY_VIDEOS),
   (".m4v", CATEGORY_VIDEOS),
   (".zip", CATEGORY_ARCHIVES), (".rar", CATEGORY_ARCHIVES),
   (".7z", CATEGORY_ARCHIVES), (".tar", CATEGORY_ARCHIVES),
   (".gz", CATEGORY_ARCHIVES), (".bz2", CATEGORY_ARCHIVES),
   (".xz", CATEGORY_ARCHIVES), (".tgz", CATEGORY_ARCHIVES),
   (".tar.gz", CATEGORY_ARCHIVES), (".iso", CATEGORY_ARCHIVES),
   (".cpp", CATEGORY_CODE), (".c", CATEGORY_CODE),
   (".h", CATEGORY_CODE), (".hpp", CATEGORY_CODE),
   (".py", CATEGORY_CODE), (".java", CATEGORY_CODE),
   (".js", CATEGORY_CODE), (".ts", CATEGORY_CODE),
   (".jsx", CATEGORY_CODE), (".tsx", CATEGORY_CODE),
   (".html", CATEGORY_CODE), (".css", CATEGORY_CODE),
   (".scss", CATEGORY_CODE), (".php", CATEGORY_CODE),
   (".rb", CATEGORY_CODE), (".go", CATEGORY_CODE),
   (".rs", CATEGORY_CODE), (".swift", CATEGORY_CODE),
   (".sh", CATEGORY_CODE), (".bat", CATEGORY_CODE),
   (".json", CATEGORY_CODE), (".xml", CATEGORY_CODE),
   (".yaml", CATEGORY_CODE), (".yml", CATEGORY_CODE)]

/-! ## FileClassifier -/

/-- `FileClassifier::classifyFile`: exact lookup of the extension of the record
in the table; a miss yields the catch-all category. -/
def classifyFile (f : FileInfo) : String :=
  match extensionMap.lookup f.extension with
  | some c => c
  | none => CATEGORY_OTHERS

/-- Lexicographic comparison on character lists by codepoint, embedding
the byte-wise `std::string` `operator<` ordering the `std::map` keys (the
two agree on the ASCII category names). -/
def strLtAux : List Char → List Char → Bool
  | [], [] => false
  | [], _ :: _ => true
  | _ :: _, [] => false
  | a :: as, b :: bs =>
    if a.toNat < b.toNat then true
    else if b.toNat < a.toNat then false
    else strLtAux as bs

/-- `std::string` `operator<` as compared by the category `std::map`. -/
def strLt (a b : String) : Bool := strLtAux a.data b.data

/-- `categorizedFiles_[category].push_back(file)` on the `std::map`:
an order-sorted association list updated in place, inserting the key at
its sorted position when absent (the `operator[]` default-insert). -/
def mapAppend : List (String × List FileInfo) → String → FileInfo →
    List (String × List FileInfo)
  | [], k, f => [(k, [f])]
  | (k', v) :: rest, k, f =>
    if strLt k k' then (k, [f]) :: (k', v) :: rest
    else if k = k' then (k', v ++ [f]) :: rest
    else (k', v) :: mapAppend rest k f

/-- `categorizedFiles_[category] = std::vector<FileInfo>()` during the
initialization loop of `classifyFiles`: ensure the key is present. -/
def mapTouch : List (String × List FileInfo) → String →
    List (String × List FileInfo)
  | [], k => [(k, [])]
  | (k', v) :: rest, k =>
    if strLt k k' then (k, []) :: (k', v) :: rest
    else if k = k' then (k', v) :: rest
    else (k', v) :: mapTouch rest k

/-- `FileClassifier::classifyFiles`: clear the map, seed every category
with an empty vector, then place each file in its category in input
order. The result models the final `categorizedFiles_` `std::map` as a
key-sorted association list. -/
def classifyFiles (files : List FileInfo) : List (String × List FileInfo) :=
  let init := getAllCategories.foldl (fun m c => mapTouch m c) []
  files.foldl (fun m f => mapAppend m (classifyFile f) f) init

/-- `FileClassifier::getFilesInCategory`: map lookup, empty vector on a
missing key. -/
def getFilesInCategory (m : List (String × List FileInfo))
    (category : String) : List FileInfo :=
  match m.lookup category with
  | some v => v
  | none => []

def mapKeys (m : List (String × List FileInfo)) : List String :=
  m.map Prod.fst

def totalFiles (m : List (String × List FileInfo)) : Nat :=
  (m.map (fun kv => kv.2.length)).sum

/-! ## FileScanner -/

/-- `FileScanner::isLargeFile`: `sizeBytes / (1024*1024) >= largeFileSizeMB_`
with C++ truncating (toward-zero) `long long` division. -/
def isLargeFile (largeFileSizeMB : Int) (f : FileInfo) : Bool :=
  let sizeMB := Int.tdiv f.sizeBytes (1024 * 1024)
  decide (largeFileSizeMB ≤ sizeMB)

/-- `FileScanner::isOldFile`: the wall clock `nowTimeT` is sampled by the
call itself (`system_clock::now()` is the first statement of the C++
function body), so it is a per-call parameter here. Age in days is the
truncating division of the age in seconds by 86400. -/
def isOldFile (oldFileAgeDays nowTimeT : Int) (f : FileInfo) : Bool :=
  let ageSeconds := nowTimeT - f.lastModified
  let ageDays := Int.tdiv ageSeconds (60 * 60 * 24)
  decide (oldFileAgeDays ≤ ageDays)

/-- The `largeFiles_` vector accumulated by the scan loop in
`FileScanner::scanDirectory`: files passing `isLargeFile`, in scan order. -/
def scanLargeFiles (largeFileSizeMB : Int) (files : List FileInfo) :
    List FileInfo :=
  files.filter (isLargeFile largeFileSizeMB)

/-- The `oldFiles_` vector accumulated by the scan loop in
`FileScanner::scanDirectory`.  `clock k` is the value returned by
`system_clock::now()` inside the k-th `isOldFile` call of the scan: the
source resamples the clock on every call. -/
def scanOldFiles (oldFileAgeDays : Int) (clock : Nat → Int) :
    Nat → List FileInfo → List FileInfo
  | _, [] => []
  | k, f :: fs =>
    (if isOldFile oldFileAgeDays (clock k) f then [f] else []) ++
      scanOldFiles oldFileAgeDays clock (k + 1) fs

/-- Modelled from the spec: the reading the spec gives of the old-file partition,
in which one single `now` sample serves the whole scan invocation. This
definition follows the words of the spec and is compared against
`scanOldFiles`, the embedding of the per-call sampling done by the source. -/
def oldFilesSingleNow (oldFileAgeDays now : Int) (files : List FileInfo) :
    List FileInfo :=
  files.filter (isOldFile oldFileAgeDays now)

/-! ## FileMover

The filesystem is modelled as the finite set of existing file paths and
directory paths.  `fs::create_directory` and `fs::rename` may throw; which
calls throw is decided by an explicit oracle, as is the wall-clock string
produced for a collision timestamp. -/

/-- The filesystem state: existing regular-file paths and directory paths. -/
structure FS where
  files : List String
  dirs : List String
deriving DecidableEq

/-- `fs::exists`: the path names an existing file or directory. -/
def FS.pathExists (fs : FS) (p : String) : Bool :=
  decide (p ∈ fs.files) || decide (p ∈ fs.dirs)

/-- The contribution of the environment to one `organizeFiles` run: which
`fs::create_directory` and `fs::rename` calls throw, and the formatted
`YYYYMMDD_HHMMSS` wall-clock string observed by the n-th collision check
(collisions are numbered by the warning counter at the moment of the
check). -/
structure FsOracle where
  mkdirFails : String → Bool
  renameFails : String → String → Bool
  tsClock : Nat → String

/-- The mutable state of a `FileMover` during one `organizeFiles` run:
the filesystem plus the three counters. -/
structure MoverState where
  fs : FS
  success : Nat
  fail : Nat
  warning : Nat
deriving DecidableEq

/-- Split a list of characters at its last occurrence of a dot, the dot
going with the second component; `none` when no dot occurs. -/
def splitAtLastDotAux : List Char → Option (List Char × List Char)
  | [] => none
  | c :: rest =>
    match splitAtLastDotAux rest with
    | some (s, e) => some (c :: s, e)
    | none => if c = '.' then some ([], c :: rest) else none

/-- `fs::path(fileName).stem()` and `.extension()` on a plain file name:
the extension starts at the last dot, except that the names `.` and `..`
and a dot in first position yield no extension. -/
def splitStemExt (fileName : String) : String × String :=
  if fileName = "." ∨ fileName = ".." then (fileName, "")
  else
    match splitAtLastDotAux fileName.data with
    | none => (fileName, "")
    | some (s, e) => if s.isEmpty then (fileName, "") else (⟨s⟩, ⟨e⟩)

/-- `FileMover::handleFileCollision`: insert `_<timestamp>` between stem
and extension and re-anchor under the target directory. -/
def handleFileCollision (targetDirectory fileName ts : String) : String :=
  let stem := (splitStemExt fileName).1
  let extension := (splitStemExt fileName).2
  let newFileName := stem ++ "_" ++ ts ++ extension
  targetDirectory ++ "/" ++ newFileName

/-- `FileMover::moveFile`.  The collision check runs against the current
filesystem; a collision consumes a wall-clock sample and bumps the
warning counter.  In dry-run mode the move is only counted; in real mode
`fs::rename` either throws (oracle-decided, or the source is gone —
both land in the `catch` that bumps the fail counter) or atomically
relocates the file. -/
def moveFile (dryRun : Bool) (o : FsOracle) (st : MoverState)
    (fileInfo : FileInfo) (targetDirectory : String) : MoverState :=
  let targetPath := targetDirectory ++ "/" ++ fileInfo.name
  let collide := st.fs.pathExists targetPath
  let targetPath :=
    if collide then
      handleFileCollision targetDirectory fileInfo.name (o.tsClock st.warning)
    else targetPath
  let st := if collide then { st with warning := st.warning + 1 } else st
  if dryRun then
    { st with success := st.success + 1 }
  else if o.renameFails fileInfo.path targetPath then
    { st with fail := st.fail + 1 }
  else if fileInfo.path ∈ st.fs.files then
    { st with
        fs := { st.fs with
                  files := (st.fs.files.erase fileInfo.path).insert targetPath },
        success := st.success + 1 }
  else
    { st with fail := st.fail + 1 }

/-- `FileMover::createCategoryDirectories`: for each non-empty category,
ensure `baseDirectory/category` exists.  Dry-run only inspects; real mode
creates the directory when absent, and a throwing `fs::create_directory`
makes the whole phase return `false` at once, keeping the directories
already created. -/
def createCategoryDirectories (dryRun : Bool) (o : FsOracle) (fs : FS)
    (baseDirectory : String) :
    List (String × List FileInfo) → Bool × FS
  | [] => (true, fs)
  | (category, files) :: rest =>
    if files.isEmpty then
      createCategoryDirectories dryRun o fs baseDirectory rest
    else
      let categoryPath := baseDirectory ++ "/" ++ category
      if dryRun then
        createCategoryDirectories dryRun o fs baseDirectory rest
      else if fs.pathExists categoryPath then
        createCategoryDirectories dryRun o fs baseDirectory rest
      else if o.mkdirFails categoryPath then
        (false, fs)
      else
        createCategoryDirectories dryRun o
          { fs with dirs := categoryPath :: fs.dirs } baseDirectory rest

/-- The inner loop of `organizeFiles` step 2 over the files of one category. -/
def moveCategoryFiles (dryRun : Bool) (o : FsOracle) (st : MoverState)
    (targetDir : String) (files : List FileInfo) : MoverState :=
  files.foldl (fun s f => moveFile dryRun o s f targetDir) st

/-- The outer loop of `organizeFiles` step 2 over the categorized map,
skipping empty categories. -/
def moveAllFiles (dryRun : Bool) (o : FsOracle) (st : MoverState)
    (baseDirectory : String) :
    List (String × List FileInfo) → MoverState
  | [] => st
  | (category, files) :: rest =>
    if files.isEmpty then
      moveAllFiles dryRun o st baseDirectory rest
    else
      moveAllFiles dryRun o
        (moveCategoryFiles dryRun o st (baseDirectory ++ "/" ++ category) files)
        baseDirectory rest

/-- What `FileMover::organizeFiles` leaves behind: its boolean return
value, the filesystem, and the three counters read through the getters. -/
structure OrganizeResult where
  ok : Bool
  fs : FS
  success : Nat
  fail : Nat
  warning : Nat
deriving DecidableEq

/-- `FileMover::organizeFiles`: reset the counters, materialize category
directories (a failure there returns `false` before any move), then move
every file of every non-empty category, returning `true`. -/
def organizeFiles (dryRun : Bool) (o : FsOracle) (fs0 : FS)
    (baseDirectory : String)
    (categorizedFiles : List (String × List FileInfo)) : OrganizeResult :=
  let step1 := createCategoryDirectories dryRun o fs0 baseDirectory
    categorizedFiles
  if step1.1 then
    let st := moveAllFiles dryRun o ⟨step1.2, 0, 0, 0⟩ baseDirectory
      categorizedFiles
    ⟨true, st.fs, st.success, st.fail, st.warning⟩
  else
    ⟨false, step1.2, 0, 0, 0⟩

/-! ## Association-list lemmas -/

theorem lookup_of_mem_of_nodup_keys {β : Type} {k : String} {c : β} :
    ∀ {l : List (String × β)}, (l.map Prod.fst).Nodup → (k, c) ∈ l →
      l.lookup k = some c := by
  intro l
  induction l with
  | nil => intro _ h; cases h
  | cons p rest ih =>
    intro hnd hmem
    obtain ⟨k', c'⟩ := p
    simp only [List.map_cons, List.nodup_cons] at hnd
    rcases List.mem_cons.1 hmem with heq | htail
    · cases heq
      simp [List.lookup_cons]
    · have hk : k ≠ k' := by
        intro h
        subst h
        exact hnd.1 (List.mem_map.2 ⟨(k, c), htail, rfl⟩)
      simp only [List.lookup_cons, beq_false_of_ne hk]
      exact ih hnd.2 htail

theorem lookup_eq_none_of_not_mem_keys {β : Type} {k : String}
    {l : List (String × β)} (h : k ∉ l.map Prod.fst) :
    l.lookup k = none := by
  rw [List.lookup_eq_none_iff]
  intro p hp
  simp only [bne_iff_ne, ne_eq]
  intro hk
  exact h (hk ▸ List.mem_map.2 ⟨p, hp, rfl⟩)

theorem mem_mapKeys_mapAppend {cat k : String} (f : FileInfo) :
    ∀ {m : List (String × List FileInfo)}, cat ∈ mapKeys m →
      cat ∈ mapKeys (mapAppend m k f) := by
  intro m
  induction m with
  | nil => intro h; cases h
  | cons p rest ih =>
    intro h
    obtain ⟨k', v⟩ := p
    simp only [mapAppend]
    by_cases h1 : strLt k k'
    · rw [if_pos h1]
      exact List.mem_cons_of_mem _ h
    · rw [if_neg h1]
      by_cases h2 : k = k'
      · rw [if_pos h2]
        exact h
      · rw [if_neg h2]
        simp only [mapKeys, List.map_cons, List.mem_cons] at h ⊢
        rcases h with heq | htail
        · exact Or.inl heq
        · exact Or.inr (ih htail)

theorem mem_mapKeys_classify_foldl {cat : String} :
    ∀ (files : List FileInfo) (m : List (String × List FileInfo)),
      cat ∈ mapKeys m →
      cat ∈ mapKeys (files.foldl (fun m f => mapAppend m (classifyFile f) f) m)
  | [], _, h => h
  | f :: fs, m, h =>
    mem_mapKeys_classify_foldl fs _ (mem_mapKeys_mapAppend f h)

/-! ## Order lemmas for the map-key comparison -/

theorem strLtAux_irrefl : ∀ (a : List Char), strLtAux a a = false
  | [] => rfl
  | x :: as => by simp [strLtAux, strLtAux_irrefl as]

theorem strLtAux_trans {a : List Char} :
    ∀ {b c : List Char}, strLtAux a b = true → strLtAux b c = true →
      strLtAux a c = true := by
  induction a with
  | nil =>
    intro b c hab hbc
    cases b with
    | nil => simp [strLtAux] at hab
    | cons y bs =>
      cases c with
      | nil => simp [strLtAux] at hbc
      | cons z cs => simp [strLtAux]
  | cons x as ih =>
    intro b c hab hbc
    cases b with
    | nil => simp [strLtAux] at hab
    | cons y bs =>
      cases c with
      | nil => simp [strLtAux] at hbc
      | cons z cs =>
        simp only [strLtAux] at hab hbc ⊢
        by_cases h1 : x.toNat < y.toNat
        · by_cases h2 : y.toNat < z.toNat
          · rw [if_pos (by omega)]
          · rw [if_neg h2] at hbc
            by_cases h3 : z.toNat < y.toNat
            · rw [if_pos h3] at hbc; simp at hbc
            · rw [if_pos (by omega)]
        · rw [if_neg h1] at hab
          by_cases h4 : y.toNat < x.toNat
          · rw [if_pos h4] at hab; simp at hab
          · rw [if_neg h4] at hab
            by_cases h2 : y.toNat < z.toNat
            · rw [if_pos (by omega)]
            · rw [if_neg h2] at hbc
              by_cases h3 : z.toNat < y.toNat
              · rw [if_pos h3] at hbc; simp at hbc
              · rw [if_neg h3] at hbc
                rw [if_neg (by omega), if_neg (by omega)]
                exact ih hab hbc

theorem strLtAux_total : ∀ (a b : List Char),
    strLtAux a b = true ∨ a = b ∨ strLtAux b a = true
  | [], [] => Or.inr (Or.inl rfl)
  | [], _ :: _ => Or.inl rfl
  | _ :: _, [] => Or.inr (Or.inr rfl)
  | x :: as, y :: bs => by
    by_cases h1 : x.toNat < y.toNat
    · exact Or.inl (by simp [strLtAux, h1])
    · by_cases h2 : y.toNat < x.toNat
      · exact Or.inr (Or.inr (by simp [strLtAux, h2, h1]))
      · have hxy : x = y :=
          Char.eq_of_val_eq (UInt32.eq_of_val_eq
            (Fin.ext (show x.toNat = y.toNat by omega)))
        subst hxy
        rcases strLtAux_total as bs with h | h | h
        · exact Or.inl (by simp [strLtAux, h])
        · exact Or.inr (Or.inl (by rw [h]))
        · exact Or.inr (Or.inr (by simp [strLtAux, h]))

theorem strLt_trans {a b c : String} (h1 : strLt a b = true)
    (h2 : strLt b c = true) : strLt a c = true :=
  strLtAux_trans h1 h2

theorem strLt_total (a b : String) :
    strLt a b = true ∨ a = b ∨ strLt b a = true := by
  rcases strLtAux_total a.data b.data with h | h | h
  · exact Or.inl h
  · refine Or.inr (Or.inl ?_)
    have h2 : a.data = b.data := h
    cases a; cases b
    exact congrArg String.mk h2
  · exact Or.inr (Or.inr h)

theorem strLt_ne {a b : String} (h : strLt a b = true) : a ≠ b := by
  intro he
  subst he
  rw [show strLt a a = strLtAux a.data a.data from rfl,
    strLtAux_irrefl] at h
  cases h

/-! ## Classification invariants -/

theorem totalFiles_mapAppend (k : String) (f : FileInfo) :
    ∀ (m : List (String × List FileInfo)),
      totalFiles (mapAppend m k f) = totalFiles m + 1
  | [] => by simp [mapAppend, totalFiles]
  | (k', v) :: rest => by
    by_cases h1 : strLt k k'
    · simp [mapAppend, h1, totalFiles]
      omega
    · by_cases h2 : k = k'
      · subst h2
        simp [mapAppend, strLt, strLtAux_irrefl, totalFiles]
        omega
      · have hrec := totalFiles_mapAppend k f rest
        simp only [mapAppend, if_neg h1, if_neg h2, totalFiles,
          List.map_cons, List.sum_cons] at hrec ⊢
        omega

theorem totalFiles_classify_foldl :
    ∀ (files : List FileInfo) (m : List (String × List FileInfo)),
      totalFiles
          (files.foldl (fun m f => mapAppend m (classifyFile f) f) m) =
        totalFiles m + files.length
  | [], _ => rfl
  | f :: fs, m => by
    rw [List.foldl_cons, totalFiles_classify_foldl fs, totalFiles_mapAppend]
    simp only [List.length_cons]
    omega

theorem mapKeys_mapAppend_subset (k : String) (f : FileInfo) :
    ∀ (m : List (String × List FileInfo)) {j : String},
      j ∈ mapKeys (mapAppend m k f) → j = k ∨ j ∈ mapKeys m := by
  intro m
  induction m with
  | nil =>
    intro j hj
    simp [mapAppend, mapKeys] at hj
    exact Or.inl hj
  | cons p rest ih =>
    obtain ⟨k', v⟩ := p
    intro j hj
    simp only [mapAppend] at hj
    by_cases h1 : strLt k k'
    · rw [if_pos h1] at hj
      simp only [mapKeys, List.map_cons, List.mem_cons] at hj ⊢
      tauto
    · rw [if_neg h1] at hj
      by_cases h2 : k = k'
      · rw [if_pos h2] at hj
        exact Or.inr hj
      · rw [if_neg h2] at hj
        simp only [mapKeys, List.map_cons, List.mem_cons] at hj ⊢
        rcases hj with hj | hj
        · tauto
        · rcases ih hj with hj2 | hj2 <;> tauto

theorem pairwise_mapAppend (k : String) (f : FileInfo) :
    ∀ (m : List (String × List FileInfo)),
      m.Pairwise (fun p q => strLt p.1 q.1 = true) →
      (mapAppend m k f).Pairwise (fun p q => strLt p.1 q.1 = true) := by
  intro m
  induction m with
  | nil => intro _; simp [mapAppend]
  | cons p rest ih =>
    obtain ⟨k', v⟩ := p
    intro hp
    rw [List.pairwise_cons] at hp
    obtain ⟨hhead, hrest⟩ := hp
    simp only [mapAppend]
    by_cases h1 : strLt k k'
    · rw [if_pos h1, List.pairwise_cons]
      refine ⟨?_, List.pairwise_cons.2 ⟨hhead, hrest⟩⟩
      intro q hq
      rcases List.mem_cons.1 hq with rfl | hq2
      · exact h1
      · exact strLt_trans h1 (hhead q hq2)
    · rw [if_neg h1]
      by_cases h2 : k = k'
      · rw [if_pos h2, List.pairwise_cons]
        exact ⟨hhead, hrest⟩
      · rw [if_neg h2, List.pairwise_cons]
        refine ⟨?_, ih hrest⟩
        intro q hq
        have hkey : q.1 = k ∨ q.1 ∈ mapKeys rest :=
          mapKeys_mapAppend_subset k f rest
            (List.mem_map.2 ⟨q, hq, rfl⟩)
        rcases hkey with hqk | hqk
        · rw [hqk]
          rcases strLt_total k k' with h | h | h
          · exact absurd h h1
          · exact absurd h h2
          · exact h
        · obtain ⟨p2, hp2, hp2k⟩ := List.mem_map.1 hqk
          rw [← hp2k]
          exact hhead p2 hp2

theorem memcond_mapAppend (f : FileInfo) :
    ∀ (m : List (String × List FileInfo)),
      (∀ kv ∈ m, ∀ x ∈ kv.2, classifyFile x = kv.1) →
      ∀ kv ∈ mapAppend m (classifyFile f) f, ∀ x ∈ kv.2,
        classifyFile x = kv.1 := by
  intro m
  induction m with
  | nil =>
    intro _ kv hkv x hx
    simp only [mapAppend, List.mem_singleton] at hkv
    subst hkv
    simp only [List.mem_singleton] at hx
    subst hx
    rfl
  | cons p rest ih =>
    obtain ⟨k', v⟩ := p
    intro hc kv hkv x hx
    simp only [mapAppend] at hkv
    by_cases h1 : strLt (classifyFile f) k'
    · rw [if_pos h1] at hkv
      rcases List.mem_cons.1 hkv with rfl | hkv2
      · simp only [List.mem_singleton] at hx
        subst hx
        rfl
      · exact hc kv hkv2 x hx
    · rw [if_neg h1] at hkv
      by_cases h2 : classifyFile f = k'
      · rw [if_pos h2] at hkv
        rcases List.mem_cons.1 hkv with rfl | hkv2
        · rcases List.mem_append.1 hx with hx2 | hx2
          · exact hc (k', v) (List.mem_cons_self _ _) x hx2
          · simp only [List.mem_singleton] at hx2
            subst hx2
            exact h2
        · exact hc kv (List.mem_cons_of_mem _ hkv2) x hx
      · rw [if_neg h2] at hkv
        rcases List.mem_cons.1 hkv with rfl | hkv2
        · exact hc (k', v) (List.mem_cons_self _ _) x hx
        · exact ih (fun kv2 h3 => hc kv2 (List.mem_cons_of_mem _ h3))
            kv hkv2 x hx

theorem mem_mapAppend_self (f : FileInfo) (k : String) :
    ∀ (m : List (String × List FileInfo)),
      ∃ kv, kv ∈ mapAppend m k f ∧ f ∈ kv.2 := by
  intro m
  induction m with
  | nil => exact ⟨(k, [f]), List.mem_singleton_self _, List.mem_singleton_self _⟩
  | cons p rest ih =>
    obtain ⟨k', v⟩ := p
    simp only [mapAppend]
    by_cases h1 : strLt k k'
    · rw [if_pos h1]
      exact ⟨(k, [f]), List.mem_cons_self _ _, List.mem_singleton_self _⟩
    · rw [if_neg h1]
      by_cases h2 : k = k'
      · rw [if_pos h2]
        exact ⟨(k', v ++ [f]), List.mem_cons_self _ _,
          List.mem_append.2 (Or.inr (List.mem_singleton_self _))⟩
      · rw [if_neg h2]
        obtain ⟨kv, hkv, hf⟩ := ih
        exact ⟨kv, List.mem_cons_of_mem _ hkv, hf⟩

theorem mem_mapAppend_mono (f x : FileInfo) (k : String) :
    ∀ (m : List (String × List FileInfo)) (kv : String × List FileInfo),
      kv ∈ m → x ∈ kv.2 →
      ∃ kv2, kv2 ∈ mapAppend m k f ∧ x ∈ kv2.2 := by
  intro m
  induction m with
  | nil => intro kv h; cases h
  | cons p rest ih =>
    obtain ⟨k', v⟩ := p
    intro kv hkv hx
    simp only [mapAppend]
    by_cases h1 : strLt k k'
    · rw [if_pos h1]
      exact ⟨kv, List.mem_cons_of_mem _ hkv, hx⟩
    · rw [if_neg h1]
      by_cases h2 : k = k'
      · rw [if_pos h2]
        rcases List.mem_cons.1 hkv with rfl | hkv2
        · exact ⟨(k', v ++ [f]), List.mem_cons_self _ _,
            List.mem_append.2 (Or.inl hx)⟩
        · exact ⟨kv, List.mem_cons_of_mem _ hkv2, hx⟩
      · rw [if_neg h2]
        rcases List.mem_cons.1 hkv with rfl | hkv2
        · exact ⟨(k', v), List.mem_cons_self _ _, hx⟩
        · obtain ⟨kv2, hkv2b, hx2⟩ := ih kv hkv2 hx
          exact ⟨kv2, List.mem_cons_of_mem _ hkv2b, hx2⟩

theorem classify_foldl_inv :
    ∀ (files : List FileInfo) (m : List (String × List FileInfo)),
      m.Pairwise (fun p q => strLt p.1 q.1 = true) →
      (∀ kv ∈ m, ∀ x ∈ kv.2, classifyFile x = kv.1) →
      (files.foldl (fun m f => mapAppend m (classifyFile f) f) m).Pairwise
          (fun p q => strLt p.1 q.1 = true) ∧
        ∀ kv ∈ files.foldl (fun m f => mapAppend m (classifyFile f) f) m,
          ∀ x ∈ kv.2, classifyFile x = kv.1
  | [], m, hp, hc => ⟨hp, hc⟩
  | f :: fs, m, hp, hc => by
    rw [List.foldl_cons]
    exact classify_foldl_inv fs _ (pairwise_mapAppend _ f m hp)
      (memcond_mapAppend f m hc)

theorem classify_foldl_mem :
    ∀ (files : List FileInfo) (m : List (String × List FileInfo))
      (x : FileInfo),
      (x ∈ files ∨ ∃ kv, kv ∈ m ∧ x ∈ kv.2) →
      ∃ kv,
        kv ∈ files.foldl (fun m f => mapAppend m (classifyFile f) f) m ∧
          x ∈ kv.2 := by
  intro files
  induction files with
  | nil =>
    intro m x h
    rcases h with h | h
    · cases h
    · exact h
  | cons f fs ih =>
    intro m x h
    rw [List.foldl_cons]
    rcases h with h | ⟨kv, hkv, hx⟩
    · rcases List.mem_cons.1 h with rfl | h2
      · exact ih _ x (Or.inr (mem_mapAppend_self x (classifyFile x) m))
      · exact ih _ x (Or.inl h2)
    · exact ih _ x
        (Or.inr (mem_mapAppend_mono f x (classifyFile f) m kv hkv hx))

theorem eq_of_mem_pairwise :
    ∀ {m : List (String × List FileInfo)},
      m.Pairwise (fun p q => strLt p.1 q.1 = true) →
      ∀ {kv1 kv2 : String × List FileInfo}, kv1 ∈ m → kv2 ∈ m →
        kv1.1 = kv2.1 → kv1 = kv2 := by
  intro m
  induction m with
  | nil => intro _ kv1 kv2 h; cases h
  | cons p rest ih =>
    intro hp kv1 kv2 h1 h2 hk
    rw [List.pairwise_cons] at hp
    rcases List.mem_cons.1 h1 with rfl | h1b
    · rcases List.mem_cons.1 h2 with rfl | h2b
      · rfl
      · exact absurd hk (strLt_ne (hp.1 kv2 h2b))
    · rcases List.mem_cons.1 h2 with rfl | h2b
      · exact absurd hk.symm (strLt_ne (hp.1 kv1 h1b))
      · exact ih hp.2 h1b h2b hk

/-! ## Dry-run lemmas -/

theorem createCategoryDirectories_dry (o : FsOracle) (base : String) :
    ∀ (l : List (String × List FileInfo)) (fs : FS),
      createCategoryDirectories true o fs base l = (true, fs) := by
  intro l
  induction l with
  | nil => intro fs; rfl
  | cons p rest ih =>
    intro fs
    obtain ⟨c, files⟩ := p
    simp only [createCategoryDirectories]
    by_cases h : files.isEmpty <;> simp [h, ih fs]

theorem moveFile_dry (o : FsOracle) (st : MoverState) (f : FileInfo)
    (d : String) :
    moveFile true o st f d =
      { st with
          success := st.success + 1,
          warning :=
            if st.fs.pathExists (d ++ "/" ++ f.name) then st.warning + 1
            else st.warning } := by
  by_cases h : st.fs.pathExists (d ++ "/" ++ f.name) <;>
    simp [moveFile, h]

theorem moveCategoryFiles_dry (o : FsOracle) (d : String) :
    ∀ (files : List FileInfo) (st : MoverState),
      (moveCategoryFiles true o st d files).fs = st.fs ∧
        (moveCategoryFiles true o st d files).success =
          st.success + files.length ∧
        (moveCategoryFiles true o st d files).fail = st.fail := by
  intro files
  induction files with
  | nil => intro st; exact ⟨rfl, rfl, rfl⟩
  | cons f fs ih =>
    intro st
    have h2 := ih (moveFile true o st f d)
    rw [moveFile_dry] at h2
    have hgoal : moveCategoryFiles true o st d (f :: fs) =
        moveCategoryFiles true o (moveFile true o st f d) d fs := rfl
    rw [hgoal, moveFile_dry]
    refine ⟨h2.1, ?_, h2.2.2⟩
    rw [h2.2.1]
    show st.success + 1 + fs.length = st.success + (f :: fs).length
    simp only [List.length_cons]
    omega

theorem moveAllFiles_dry (o : FsOracle) (base : String) :
    ∀ (l : List (String × List FileInfo)) (st : MoverState),
      (moveAllFiles true o st base l).fs = st.fs ∧
        (moveAllFiles true o st base l).success =
          st.success + totalFiles l ∧
        (moveAllFiles true o st base l).fail = st.fail := by
  intro l
  induction l with
  | nil => intro st; exact ⟨rfl, rfl, rfl⟩
  | cons p rest ih =>
    intro st
    obtain ⟨c, files⟩ := p
    by_cases h : files.isEmpty
    · have hlen : files.length = 0 := by
        rwa [List.isEmpty_iff_length_eq_zero] at h
      simp only [moveAllFiles, h, if_pos]
      have h2 := ih st
      refine ⟨h2.1, ?_, h2.2.2⟩
      rw [h2.2.1]
      simp [totalFiles, hlen]
    · simp only [moveAllFiles, h, if_neg, Bool.false_eq_true,
        not_false_iff]
      have h3 := moveCategoryFiles_dry o (base ++ "/" ++ c) files st
      have h2 := ih (moveCategoryFiles true o st (base ++ "/" ++ c) files)
      refine ⟨by rw [h2.1, h3.1], ?_, by rw [h2.2.2, h3.2.2]⟩
      rw [h2.2.1, h3.2.1]
      simp only [totalFiles, List.map_cons, List.sum_cons]
      omega

/-! ## Stem/extension lemmas -/

theorem splitAtLastDotAux_append :
    ∀ {cs s e : List Char}, splitAtLastDotAux cs = some (s, e) →
      s ++ e = cs := by
  intro cs
  induction cs with
  | nil => intro s e h; cases h
  | cons c rest ih =>
    intro s e h
    simp only [splitAtLastDotAux] at h
    cases hr : splitAtLastDotAux rest with
    | some p =>
      obtain ⟨s2, e2⟩ := p
      rw [hr] at h
      simp only [Option.some.injEq, Prod.mk.injEq] at h
      obtain ⟨hs, he⟩ := h
      subst hs
      subst he
      simp [ih hr]
    | none =>
      rw [hr] at h
      by_cases hc : c = '.'
      · rw [if_pos hc] at h
        simp only [Option.some.injEq, Prod.mk.injEq] at h
        obtain ⟨hs, he⟩ := h
        subst hs
        subst he
        simp
      · rw [if_neg hc] at h
        cases h

theorem splitStemExt_append (name : String) :
    (splitStemExt name).1 ++ (splitStemExt name).2 = name := by
  unfold splitStemExt
  by_cases h : name = "." ∨ name = ".."
  · rw [if_pos h]
    exact String.append_empty name
  · rw [if_neg h]
    cases hr : splitAtLastDotAux name.data with
    | none => exact String.append_empty name
    | some p =>
      obtain ⟨s, e⟩ := p
      by_cases hs : s.isEmpty
      · simp only [hs, if_pos]
        exact String.append_empty name
      · simp only [hs, Bool.false_eq_true, if_neg, not_false_iff]
        have h2 : s ++ e = name.data := splitAtLastDotAux_append hr
        have h3 : (⟨s⟩ : String) ++ ⟨e⟩ = ⟨s ++ e⟩ := rfl
        rw [h3, h2]

/-! ## Claim theorems -/

/-- C10: for every category name absent from the classification map —
any string at all — `getFilesInCategory` returns the empty list instead
of failing. -/
theorem C10_getFilesInCategory_missing
    (m : List (String × List FileInfo)) (category : String)
    (h : category ∉ mapKeys m) :
    getFilesInCategory m category = [] := by
  unfold getFilesInCategory
  rw [lookup_eq_none_of_not_mem_keys h]

/-- Witness for C10 at the classification of the empty scan and the
arbitrary non-category string "Bogus". -/
theorem C10_witness :
    getFilesInCategory (classifyFiles []) "Bogus" = [] :=
  C10_getFilesInCategory_missing (classifyFiles []) "Bogus" (by decide)

/-- C9: the boolean returned by `organizeFiles` equals the outcome of the
directory-materialization phase alone; per-file move failures are visible
only in the fail counter, never in the return value. -/
theorem C9_organizeFiles_ok_iff_dirs (dryRun : Bool) (o : FsOracle)
    (fs0 : FS) (baseDirectory : String)
    (categorizedFiles : List (String × List FileInfo)) :
    (organizeFiles dryRun o fs0 baseDirectory categorizedFiles).ok =
      (createCategoryDirectories dryRun o fs0 baseDirectory
        categorizedFiles).1 := by
  unfold organizeFiles
  by_cases h :
      (createCategoryDirectories dryRun o fs0 baseDirectory
        categorizedFiles).1 <;>
    simp [h]

/-- C6: in real mode, when the directory-materialization phase fails,
`organizeFiles` returns failure at once: no file move is attempted and
all three counters are zero. -/
theorem C6_organizeFiles_dir_failure (o : FsOracle) (fs0 : FS)
    (baseDirectory : String)
    (categorizedFiles : List (String × List FileInfo))
    (h : (createCategoryDirectories false o fs0 baseDirectory
      categorizedFiles).1 = false) :
    organizeFiles false o fs0 baseDirectory categorizedFiles =
      ⟨false,
       (createCategoryDirectories false o fs0 baseDirectory
         categorizedFiles).2, 0, 0, 0⟩ := by
  unfold organizeFiles
  simp [h]

/-- Witness for C6: one non-empty category, an oracle on which every
`fs::create_directory` call throws. -/
theorem C6_witness :
    (createCategoryDirectories false
        ⟨fun _ => true, fun _ _ => false, fun _ => ""⟩
        ⟨["d/x.pdf"], ["d"]⟩ "d"
        [("Documents", [⟨"d/x.pdf", "x.pdf", ".pdf", 0, 0⟩])]).1 = false ∧
      organizeFiles false ⟨fun _ => true, fun _ _ => false, fun _ => ""⟩
        ⟨["d/x.pdf"], ["d"]⟩ "d"
        [("Documents", [⟨"d/x.pdf", "x.pdf", ".pdf", 0, 0⟩])] =
      ⟨false, ⟨["d/x.pdf"], ["d"]⟩, 0, 0, 0⟩ :=
  ⟨by decide,
   C6_organizeFiles_dir_failure _ _ _ _ (by decide)⟩

/-- C3: classification drops no file and duplicates none: the category
sizes sum to the input length, and every input file lies in exactly one
category of the result. -/
theorem C3_classifyFiles_partition (files : List FileInfo) :
    totalFiles (classifyFiles files) = files.length ∧
      ∀ x ∈ files, ∃! kv, kv ∈ classifyFiles files ∧ x ∈ kv.2 := by
  have hinit : getAllCategories.foldl (fun m c => mapTouch m c) [] =
      [(CATEGORY_ARCHIVES, []), (CATEGORY_CODE, []),
       (CATEGORY_DOCUMENTS, []), (CATEGORY_IMAGES, []),
       (CATEGORY_OTHERS, []), (CATEGORY_VIDEOS, [])] := by rfl
  have hpair : (getAllCategories.foldl (fun m c => mapTouch m c) []).Pairwise
      (fun p q => strLt p.1 q.1 = true) := by
    rw [hinit]
    decide
  have hcond : ∀ kv ∈ getAllCategories.foldl (fun m c => mapTouch m c) [],
      ∀ x ∈ kv.2, classifyFile x = kv.1 := by
    rw [hinit]
    intro kv hkv x hx
    simp only [List.mem_cons, List.not_mem_nil, or_false] at hkv
    rcases hkv with rfl | rfl | rfl | rfl | rfl | rfl <;> simp at hx
  obtain ⟨hp, hcnd⟩ :=
    classify_foldl_inv files (getAllCategories.foldl (fun m c => mapTouch m c) [])
      hpair hcond
  simp only [classifyFiles]
  constructor
  · rw [totalFiles_classify_foldl, hinit]
    simp [totalFiles]
  · intro x hx
    obtain ⟨kv, hkv, hxkv⟩ :=
      classify_foldl_mem files
        (getAllCategories.foldl (fun m c => mapTouch m c) []) x (Or.inl hx)
    refine ⟨kv, ⟨hkv, hxkv⟩, ?_⟩
    rintro kv2 ⟨hkv2, hxkv2⟩
    exact eq_of_mem_pairwise hp hkv2 hkv
      ((hcnd kv2 hkv2 x hxkv2).symm.trans (hcnd kv hkv x hxkv))

/-- Witness for C3 on a one-file input: the sizes sum to 1 and the file
sits in exactly one category. -/
theorem C3_witness :
    totalFiles (classifyFiles [⟨"d/x.pdf", "x.pdf", ".pdf", 1, 0⟩]) = 1 ∧
      ∃! kv, kv ∈ classifyFiles [⟨"d/x.pdf", "x.pdf", ".pdf", 1, 0⟩] ∧
        (⟨"d/x.pdf", "x.pdf", ".pdf", 1, 0⟩ : FileInfo) ∈ kv.2 :=
  ⟨(C3_classifyFiles_partition _).1,
   (C3_classifyFiles_partition _).2 _ (List.mem_singleton_self _)⟩

/-- C4: classification is an exact-match lookup of the extension of the record
in the static table: a key of the table goes to exactly its mapped
category, any other extension goes to exactly the catch-all category, and
neither case is an error. -/
theorem C4_classifyFile_lookup (f : FileInfo) :
    (∀ c, (f.extension, c) ∈ extensionMap → classifyFile f = c) ∧
      (f.extension ∉ extensionMap.map Prod.fst →
        classifyFile f = CATEGORY_OTHERS) := by
  constructor
  · intro c hmem
    have hnd : (extensionMap.map Prod.fst).Nodup := by decide
    unfold classifyFile
    rw [lookup_of_mem_of_nodup_keys hnd hmem]
  · intro h
    unfold classifyFile
    rw [lookup_eq_none_of_not_mem_keys h]

/-- Witness for C4: a `.pdf` record lands in Documents, a `.xyz` record
in the catch-all category. -/
theorem C4_witness :
    classifyFile ⟨"d/x.pdf", "x.pdf", ".pdf", 1, 0⟩ = CATEGORY_DOCUMENTS ∧
      classifyFile ⟨"d/x.xyz", "x.xyz", ".xyz", 1, 0⟩ = CATEGORY_OTHERS :=
  ⟨(C4_classifyFile_lookup _).1 CATEGORY_DOCUMENTS (by decide),
   (C4_classifyFile_lookup _).2 (by decide)⟩

/-- C5: for every input (the empty one included), every fixed category
key is present in the classification result. -/
theorem C5_classifyFiles_all_keys (files : List FileInfo) (cat : String)
    (h : cat ∈ getAllCategories) :
    cat ∈ mapKeys (classifyFiles files) := by
  have hinit :
      ∀ c ∈ getAllCategories,
        c ∈ mapKeys (getAllCategories.foldl (fun m c => mapTouch m c) []) := by
    decide
  unfold classifyFiles
  exact mem_mapKeys_classify_foldl files _ (hinit cat h)

/-- Witness for C5: the Documents key is present even for the empty
input. -/
theorem C5_witness : CATEGORY_DOCUMENTS ∈ mapKeys (classifyFiles []) :=
  C5_classifyFiles_all_keys [] CATEGORY_DOCUMENTS (by decide)

/-- C1: a dry-run `organizeFiles` leaves the filesystem untouched — no
file moves, no directory is created — returns `true`, records no
failure, and its success counter equals the total number of files in the
classification, each would-be move counted as a success. -/
theorem C1_organizeFiles_dry_run (o : FsOracle) (fs0 : FS)
    (baseDirectory : String)
    (categorizedFiles : List (String × List FileInfo)) :
    (organizeFiles true o fs0 baseDirectory categorizedFiles).fs = fs0 ∧
      (organizeFiles true o fs0 baseDirectory categorizedFiles).success =
        totalFiles categorizedFiles ∧
      (organizeFiles true o fs0 baseDirectory categorizedFiles).ok = true ∧
      (organizeFiles true o fs0 baseDirectory categorizedFiles).fail = 0 := by
  have hmove :=
    moveAllFiles_dry o baseDirectory categorizedFiles ⟨fs0, 0, 0, 0⟩
  simp only [organizeFiles, createCategoryDirectories_dry, if_pos]
  refine ⟨hmove.1, ?_, trivial, hmove.2.2⟩
  rw [hmove.2.1]
  simp

/-- C7: for a positive megabyte threshold, a scanned file lands in the
large-file list exactly when the floor of its byte size divided by
1024·1024 reaches the threshold; a file of exactly `T * 1024 * 1024`
bytes is large and one byte less is not. -/
theorem C7_isLargeFile_boundary (largeFileSizeMB : Int) (f : FileInfo)
    (files : List FileInfo)
    (hT : 0 < largeFileSizeMB) (hsz : 0 ≤ f.sizeBytes) :
    (f ∈ scanLargeFiles largeFileSizeMB files ↔
        f ∈ files ∧
          largeFileSizeMB ≤ Int.fdiv f.sizeBytes (1024 * 1024)) ∧
      (f.sizeBytes = largeFileSizeMB * (1024 * 1024) →
        isLargeFile largeFileSizeMB f = true) ∧
      (f.sizeBytes = largeFileSizeMB * (1024 * 1024) - 1 →
        isLargeFile largeFileSizeMB f = false) := by
  have hiff : isLargeFile largeFileSizeMB f = true ↔
      largeFileSizeMB ≤ Int.fdiv f.sizeBytes (1024 * 1024) := by
    simp only [isLargeFile, decide_eq_true_eq]
    rw [Int.tdiv_eq_ediv hsz (by norm_num),
      Int.fdiv_eq_ediv _ (by norm_num : (0:Int) ≤ 1024 * 1024)]
  refine ⟨?_, ?_, ?_⟩
  · rw [scanLargeFiles, List.mem_filter, hiff]
  · intro h
    simp only [isLargeFile, decide_eq_true_eq]
    rw [h, Int.mul_tdiv_cancel _ (by norm_num)]
  · intro h
    have h0 : (0:Int) ≤ largeFileSizeMB * (1024 * 1024) - 1 := by omega
    simp only [isLargeFile]
    rw [h, Int.tdiv_eq_ediv h0 (by norm_num)]
    simp only [decide_eq_false_iff_not]
    omega

/-- Witness for C7: with a 100 MB threshold, a 104857600-byte file is
large and a 104857599-byte one is not, and the 104857600-byte one is in
the scanned large-file list. -/
theorem C7_witness :
    isLargeFile 100 ⟨"d/big.bin", "big.bin", ".bin", 104857600, 0⟩ = true ∧
      isLargeFile 100 ⟨"d/s.bin", "s.bin", ".bin", 104857599, 0⟩ = false ∧
      ⟨"d/big.bin", "big.bin", ".bin", 104857600, 0⟩ ∈
        scanLargeFiles 100 [⟨"d/big.bin", "big.bin", ".bin", 104857600, 0⟩] :=
  ⟨(C7_isLargeFile_boundary 100 _ [] (by norm_num) (by norm_num)).2.1
      (by norm_num),
   (C7_isLargeFile_boundary 100 _ [] (by norm_num) (by norm_num)).2.2
      (by norm_num),
   (C7_isLargeFile_boundary 100 _ _ (by norm_num) (by norm_num)).1.2
      ⟨List.mem_singleton_self _, by decide⟩⟩

/-- C2: organizing two distinct source files of identical name into the
same category, in one real-mode run over a filesystem holding both
sources, a fresh category directory and a fresh destination, produces
two distinct destination files — the first under the original name, the
second with the collision timestamp spliced between stem and extension —
raises the warning counter to exactly 1, and counts both moves
(the collision-renamed one included) as successes with no failure. -/
theorem C2_collision_rename (o : FsOracle) (fs0 : FS)
    (base c ts : String) (f1 f2 : FileInfo)
    (hname : f2.name = f1.name)
    (hpath : f1.path ≠ f2.path)
    (hmk : o.mkdirFails (base ++ "/" ++ c) = false)
    (hrn : ∀ s d, o.renameFails s d = false)
    (hts : o.tsClock 0 = ts)
    (hsrc1 : f1.path ∈ fs0.files)
    (hsrc2 : f2.path ∈ fs0.files)
    (hdir : fs0.pathExists (base ++ "/" ++ c) = false)
    (hfresh : fs0.pathExists (base ++ "/" ++ c ++ "/" ++ f1.name) = false)
    (hnd : base ++ "/" ++ c ++ "/" ++ f1.name ≠ base ++ "/" ++ c)
    (hs2 : f2.path ≠ base ++ "/" ++ c ++ "/" ++ f1.name) :
    (organizeFiles false o fs0 base [(c, [f1, f2])]).ok = true ∧
      (organizeFiles false o fs0 base [(c, [f1, f2])]).success = 2 ∧
      (organizeFiles false o fs0 base [(c, [f1, f2])]).fail = 0 ∧
      (organizeFiles false o fs0 base [(c, [f1, f2])]).warning = 1 ∧
      base ++ "/" ++ c ++ "/" ++ f1.name ≠
        base ++ "/" ++ c ++ "/" ++
          ((splitStemExt f1.name).1 ++ "_" ++ ts ++
            (splitStemExt f1.name).2) ∧
      base ++ "/" ++ c ++ "/" ++ f1.name ∈
        (organizeFiles false o fs0 base [(c, [f1, f2])]).fs.files ∧
      base ++ "/" ++ c ++ "/" ++
          ((splitStemExt f1.name).1 ++ "_" ++ ts ++
            (splitStemExt f1.name).2) ∈
        (organizeFiles false o fs0 base [(c, [f1, f2])]).fs.files := by
  have hfr : ¬ (base ++ "/" ++ c ++ "/" ++ f1.name) ∈ fs0.files ∧
      ¬ (base ++ "/" ++ c ++ "/" ++ f1.name) ∈ fs0.dirs := by
    simpa [FS.pathExists, decide_eq_false_iff_not] using hfresh
  have hdr : ¬ (base ++ "/" ++ c) ∈ fs0.files ∧
      ¬ (base ++ "/" ++ c) ∈ fs0.dirs := by
    simpa [FS.pathExists, decide_eq_false_iff_not] using hdir
  -- Phase 1: the category directory is created.
  have hstep1 : createCategoryDirectories false o fs0 base [(c, [f1, f2])] =
      (true, ⟨fs0.files, (base ++ "/" ++ c) :: fs0.dirs⟩) := by
    simp [createCategoryDirectories, hdir, hmk]
  -- Phase 2a: the first file moves to the plain destination.
  have hc1 : FS.pathExists ⟨fs0.files, (base ++ "/" ++ c) :: fs0.dirs⟩
      ((base ++ "/" ++ c) ++ "/" ++ f1.name) = false := by
    simp [FS.pathExists, List.mem_cons, hfr.1, hfr.2, hnd]
  have hmv1 : moveFile false o ⟨⟨fs0.files, (base ++ "/" ++ c) :: fs0.dirs⟩, 0, 0, 0⟩
      f1 (base ++ "/" ++ c) =
      ⟨⟨(fs0.files.erase f1.path).insert ((base ++ "/" ++ c) ++ "/" ++ f1.name),
        (base ++ "/" ++ c) :: fs0.dirs⟩, 1, 0, 0⟩ := by
    simp [moveFile, hc1, hrn, hsrc1]
  -- Phase 2b: the second file collides and moves to the stamped name.
  have hc2 : FS.pathExists
      ⟨(fs0.files.erase f1.path).insert ((base ++ "/" ++ c) ++ "/" ++ f1.name),
        (base ++ "/" ++ c) :: fs0.dirs⟩
      ((base ++ "/" ++ c) ++ "/" ++ f1.name) = true := by
    simp [FS.pathExists, List.mem_insert_iff]
  have hsrc2b : f2.path ∈
      (fs0.files.erase f1.path).insert ((base ++ "/" ++ c) ++ "/" ++ f1.name) := by
    rw [List.mem_insert_iff, List.mem_erase_of_ne hpath.symm]
    exact Or.inr hsrc2
  have hmv2 : moveFile false o
      ⟨⟨(fs0.files.erase f1.path).insert ((base ++ "/" ++ c) ++ "/" ++ f1.name),
        (base ++ "/" ++ c) :: fs0.dirs⟩, 1, 0, 0⟩
      f2 (base ++ "/" ++ c) =
      ⟨⟨(((fs0.files.erase f1.path).insert
              ((base ++ "/" ++ c) ++ "/" ++ f1.name)).erase f2.path).insert
            ((base ++ "/" ++ c) ++ "/" ++
              ((splitStemExt f1.name).1 ++ "_" ++ ts ++
                (splitStemExt f1.name).2)),
          (base ++ "/" ++ c) :: fs0.dirs⟩, 2, 0, 1⟩ := by
    simp [moveFile, hc2, hrn, hsrc2b, handleFileCollision, hts, hname]
  -- The whole run.
  have hrun : organizeFiles false o fs0 base [(c, [f1, f2])] =
      ⟨true,
        ⟨(((fs0.files.erase f1.path).insert
              ((base ++ "/" ++ c) ++ "/" ++ f1.name)).erase f2.path).insert
            ((base ++ "/" ++ c) ++ "/" ++
              ((splitStemExt f1.name).1 ++ "_" ++ ts ++
                (splitStemExt f1.name).2)),
          (base ++ "/" ++ c) :: fs0.dirs⟩, 2, 0, 1⟩ := by
    simp only [organizeFiles, hstep1]
    simp only [moveAllFiles, moveCategoryFiles, List.foldl_cons,
      List.foldl_nil, List.isEmpty_cons, if_neg, Bool.false_eq_true,
      not_false_iff, hmv1, hmv2]
    rw [if_pos trivial]
  -- The two destinations differ: the stamped name is strictly longer.
  have hne : base ++ "/" ++ c ++ "/" ++ f1.name ≠
      base ++ "/" ++ c ++ "/" ++
        ((splitStemExt f1.name).1 ++ "_" ++ ts ++ (splitStemExt f1.name).2) := by
    intro he
    have hlen := congrArg String.length he
    have hjoin := congrArg String.length (splitStemExt_append f1.name)
    simp only [String.length_append] at hlen hjoin
    have hu : ("_" : String).length = 1 := rfl
    omega
  have hassoc : base ++ "/" ++ c ++ "/" ++ f1.name =
      (base ++ "/" ++ c) ++ "/" ++ f1.name := rfl
  have hassoc2 : base ++ "/" ++ c ++ "/" ++
      ((splitStemExt f1.name).1 ++ "_" ++ ts ++ (splitStemExt f1.name).2) =
      (base ++ "/" ++ c) ++ "/" ++
        ((splitStemExt f1.name).1 ++ "_" ++ ts ++ (splitStemExt f1.name).2) := rfl
  refine ⟨by rw [hrun], by rw [hrun], by rw [hrun], by rw [hrun], hne, ?_, ?_⟩
  · rw [hrun, hassoc]
    simp only [List.mem_insert_iff]
    refine Or.inr ?_
    rw [List.mem_erase_of_ne (by rw [← hassoc]; exact fun h => hs2 h.symm)]
    exact List.mem_insert_self _ _
  · rw [hrun, hassoc2]
    exact List.mem_insert_self _ _

/-- Witness for C2: concrete two-file collision under base directory
"d", category Documents, both sources named a.txt, timestamp
20240101_000000. -/
theorem C2_witness :
    (organizeFiles false
        ⟨fun _ => false, fun _ _ => false, fun _ => "20240101_000000"⟩
        ⟨["s1/a.txt", "s2/a.txt"], ["d"]⟩ "d"
        [("Documents",
          [⟨"s1/a.txt", "a.txt", ".txt", 1, 0⟩,
           ⟨"s2/a.txt", "a.txt", ".txt", 1, 0⟩])]).success = 2 ∧
      (organizeFiles false
        ⟨fun _ => false, fun _ _ => false, fun _ => "20240101_000000"⟩
        ⟨["s1/a.txt", "s2/a.txt"], ["d"]⟩ "d"
        [("Documents",
          [⟨"s1/a.txt", "a.txt", ".txt", 1, 0⟩,
           ⟨"s2/a.txt", "a.txt", ".txt", 1, 0⟩])]).warning = 1 ∧
      "d/Documents/a.txt" ∈
        (organizeFiles false
          ⟨fun _ => false, fun _ _ => false, fun _ => "20240101_000000"⟩
          ⟨["s1/a.txt", "s2/a.txt"], ["d"]⟩ "d"
          [("Documents",
            [⟨"s1/a.txt", "a.txt", ".txt", 1, 0⟩,
             ⟨"s2/a.txt", "a.txt", ".txt", 1, 0⟩])]).fs.files ∧
      "d/Documents/a_20240101_000000.txt" ∈
        (organizeFiles false
          ⟨fun _ => false, fun _ _ => false, fun _ => "20240101_000000"⟩
          ⟨["s1/a.txt", "s2/a.txt"], ["d"]⟩ "d"
          [("Documents",
            [⟨"s1/a.txt", "a.txt", ".txt", 1, 0⟩,
             ⟨"s2/a.txt", "a.txt", ".txt", 1, 0⟩])]).fs.files := by
  have h := C2_collision_rename
    ⟨fun _ => false, fun _ _ => false, fun _ => "20240101_000000"⟩
    ⟨["s1/a.txt", "s2/a.txt"], ["d"]⟩ "d" "Documents" "20240101_000000"
    ⟨"s1/a.txt", "a.txt", ".txt", 1, 0⟩
    ⟨"s2/a.txt", "a.txt", ".txt", 1, 0⟩
    rfl (by decide) rfl (fun _ _ => rfl) rfl (by decide) (by decide)
    (by decide) (by decide) (by decide) (by decide)
  exact ⟨h.2.1, h.2.2.2.1, h.2.2.2.2.2.1, h.2.2.2.2.2.2⟩

/-- C8 as stated is false of the code: the source samples the wall clock
inside every `isOldFile` call, once per file, not once per scan.  With
the age threshold 1 day, two identical files last modified at time 0, and
the clock advancing from 86399 to 86400 between the two checks, the scan
keeps exactly one of the two copies — a result no single `now` sample can
produce, since a filter by one fixed `now` keeps both copies or
neither. -/
theorem C8_counterexample :
    ¬ ∃ now : Int,
        scanOldFiles 1 (fun k => 86399 + k) 0
            [⟨"d/a.txt", "a.txt", ".txt", 1, 0⟩,
             ⟨"d/a.txt", "a.txt", ".txt", 1, 0⟩] =
          oldFilesSingleNow 1 now
            [⟨"d/a.txt", "a.txt", ".txt", 1, 0⟩,
             ⟨"d/a.txt", "a.txt", ".txt", 1, 0⟩] := by
  rintro ⟨now, h⟩
  have hs : scanOldFiles 1 (fun k => 86399 + k) 0
      [⟨"d/a.txt", "a.txt", ".txt", 1, 0⟩,
       ⟨"d/a.txt", "a.txt", ".txt", 1, 0⟩] =
      [⟨"d/a.txt", "a.txt", ".txt", 1, 0⟩] := by decide
  rw [hs] at h
  unfold oldFilesSingleNow at h
  cases hb : isOldFile 1 now ⟨"d/a.txt", "a.txt", ".txt", 1, 0⟩ <;>
    simp [List.filter, hb] at h

/-- C8 amended: the per-check characterization.  `now` is the wall clock
sampled by that very `isOldFile` call (the scan resamples it for every
file rather than once per invocation); relative to that sample the file
is old exactly when the floor of its age in seconds divided by 86400
reaches the positive day threshold, a file modified exactly
`D * 86400` seconds before the sample being old and one modified one
second later not, and the scan applies one freshly-sampled check per
file. -/
theorem C8_isOldFile_per_check (oldFileAgeDays now : Int) (f : FileInfo)
    (hD : 0 < oldFileAgeDays) :
    (isOldFile oldFileAgeDays now f = true ↔
        oldFileAgeDays ≤ Int.fdiv (now - f.lastModified) 86400) ∧
      (f.lastModified = now - oldFileAgeDays * 86400 →
        isOldFile oldFileAgeDays now f = true) ∧
      (f.lastModified = now - (oldFileAgeDays * 86400 - 1) →
        isOldFile oldFileAgeDays now f = false) ∧
      (∀ (clock : Nat → Int) (k : Nat) (g : FileInfo)
          (gs : List FileInfo),
        scanOldFiles oldFileAgeDays clock k (g :: gs) =
          (if isOldFile oldFileAgeDays (clock k) g then [g] else []) ++
            scanOldFiles oldFileAgeDays clock (k + 1) gs) := by
  refine ⟨?_, ?_, ?_, fun _ _ _ _ => rfl⟩
  · simp only [isOldFile, decide_eq_true_eq]
    rw [show (60 * 60 * 24 : Int) = 86400 from by norm_num]
    rcases le_or_lt 0 (now - f.lastModified) with ha | ha
    · rw [Int.tdiv_eq_ediv ha (by norm_num),
        Int.fdiv_eq_ediv _ (by norm_num : (0:Int) ≤ 86400)]
    · have h1 : Int.tdiv (now - f.lastModified) 86400 ≤ 0 := by
        have hx : (0:Int) ≤ -(now - f.lastModified) := by omega
        have h2 := Int.tdiv_nonneg hx (by norm_num : (0:Int) ≤ 86400)
        rw [Int.neg_tdiv] at h2
        omega
      have h3 : Int.fdiv (now - f.lastModified) 86400 < 0 := by
        rw [Int.fdiv_eq_ediv _ (by norm_num : (0:Int) ≤ 86400)]
        exact Int.ediv_neg' ha (by norm_num)
      constructor
      · intro hle; omega
      · intro hle; omega
  · intro h
    simp only [isOldFile, decide_eq_true_eq]
    rw [h]
    have hA : now - (now - oldFileAgeDays * 86400) =
        oldFileAgeDays * (60 * 60 * 24) := by ring
    rw [hA, Int.mul_tdiv_cancel _ (by norm_num)]
  · intro h
    simp only [isOldFile]
    have hA : now - (now - (oldFileAgeDays * 86400 - 1)) =
        oldFileAgeDays * 86400 - 1 := by ring
    rw [h, hA]
    have h0 : (0:Int) ≤ oldFileAgeDays * 86400 - 1 := by omega
    rw [show (60 * 60 * 24 : Int) = 86400 by norm_num,
      Int.tdiv_eq_ediv h0 (by norm_num)]
    simp only [decide_eq_false_iff_not]
    omega

/-- Witness for the amended C8 theorem at threshold 90 days: relative to
the clock sample 7776000, a file last modified at 0 is exactly 90 days
old and is classified old; one modified at 1 is not. -/
theorem C8_witness :
    isOldFile 90 7776000 ⟨"d/a.txt", "a.txt", ".txt", 1, 0⟩ = true ∧
      isOldFile 90 7776000 ⟨"d/b.txt", "b.txt", ".txt", 1, 1⟩ = false :=
  ⟨(C8_isOldFile_per_check 90 7776000 _ (by norm_num)).2.1 (by norm_num),
   (C8_isOldFile_per_check 90 7776000 _ (by norm_num)).2.2.1 (by norm_num)⟩

end DesktopCleaner
